import Mathlib

/-!
Verification of the content-generation core of testfuse (testfuse.c): a
deterministic pseudo-random file system.  The definitions below are a shallow
embedding of the C source; machine integers are modelled as Nat with explicit
reduction modulo 2 ^ 32 (uint32_t) and 2 ^ 64 (uint64_t / size_t) at the points
where the C code converts or wraps.
-/

set_option maxRecDepth 40000

/-- uint32_t modulus. -/
def U32 : Nat := 2 ^ 32

/-- uint64_t / size_t modulus. -/
def U64 : Nat := 2 ^ 64

/-- BLOCK_SIZE from testfuse.c (64*1024). -/
def BLOCK_SIZE : Nat := 64 * 1024

/-- BLOCK_SHIFT from testfuse.c. -/
def BLOCK_SHIFT : Nat := 16

/-- OFFSET_MASK from testfuse.c. -/
def OFFSET_MASK : Nat := BLOCK_SIZE - 1

/-- uint64_t subtraction, wrapping modulo 2 ^ 64 (assumes b < 2 ^ 64). -/
def sub64 (a b : Nat) : Nat := (a + U64 - b) % U64

/-- The CRC polynomial from crc (testfuse.c line 176). -/
def polynomial : Nat := 0x04C11DB7

/-- msb_mask from crc (testfuse.c line 177). -/
def msb_mask : Nat := 0x80000000

/-- divisor from crc (testfuse.c line 180): msb_mask | (polynomial >> 1). -/
def divisor : Nat := msb_mask ||| (polynomial >>> 1)

/-- divisor_next from crc (testfuse.c line 181): (polynomial & 0x01) << 31. -/
def divisor_next : Nat := (polynomial &&& 0x01) <<< 31

/-- One iteration of the bit-serial division loop of crc (testfuse.c lines
183-199), at absolute iteration index i, acting on the state
(input, input_next).  The block word is refilled into input_next when
i = 1*sizeof(uint32_t)*8 = 32 (line 185-187); the conditional xor with
divisor / divisor_next is guarded by the msb of input (lines 189-192); then
input is shifted left by one (wrapping uint32), receives the carry bit from
the msb of input_next, and input_next is shifted left (lines 194-198). -/
def crcStep (block i : Nat) (p : Nat × Nat) : Nat × Nat :=
  let input := p.1
  let inputNext := if i = 32 then block else p.2
  let inputX := if input &&& msb_mask ≠ 0 then input ^^^ divisor else input
  let inputNextX := if input &&& msb_mask ≠ 0 then inputNext ^^^ divisor_next else inputNext
  let inputS := (inputX <<< 1) % U32
  let inputC := if inputNextX &&& msb_mask ≠ 0 then inputS ||| 1 else inputS
  (inputC, (inputNextX <<< 1) % U32)

/-- crcIter block n p is the state after the first n iterations (indices
0 .. n-1) of the loop of crc, started from state p. -/
def crcIter (block : Nat) : Nat → Nat × Nat → Nat × Nat
  | 0, p => p
  | n + 1, p => crcStep block n (crcIter block n p)

/-- crc from testfuse.c lines 175-201: the three uint32_t parameters are
reduced modulo 2 ^ 32 (C conversion to uint32_t), the 96-iteration loop is
run from (global_seed, file_seed), and the final value of input is returned. -/
def crc (global_seed file_seed block : Nat) : Nat :=
  (crcIter (block % U32) (3 * 4 * 8) (global_seed % U32, file_seed % U32)).1

/-- global_seed from get_block (testfuse.c line 208). -/
def global_seed : Nat := 123456789

/-- The xorshift word stream of get_block (testfuse.c lines 213-220): from
state (x, y, z, w), each step computes t = x ^ (x << 11) (wrapping uint32),
rotates the state words, updates w = w ^ (w >> 19) ^ (t ^ (t >> 8)) and emits
the new w; n words are produced. -/
def xsWords (x y z w : Nat) : Nat → List Nat
  | 0 => []
  | n + 1 =>
    let t := x ^^^ ((x <<< 11) % U32)
    let w2 := w ^^^ (w >>> 19) ^^^ (t ^^^ (t >>> 8))
    w2 :: xsWords y z w w2 n

/-- Serialization of the uint32_t words written through buf32 into the byte
buffer of get_block (testfuse.c line 219), little-endian as on the x86
machines the program documents. -/
def wordsToBytes : List Nat → List Nat
  | [] => []
  | w :: ws =>
    (w &&& 255) :: ((w >>> 8) &&& 255) :: ((w >>> 16) &&& 255) :: ((w >>> 24) &&& 255) ::
      wordsToBytes ws

/-- get_block from testfuse.c lines 207-221: the BLOCK_SIZE bytes produced for
a given (block, file_seed) pair.  The xorshift state is seeded with the crc
mixing result and the three constants 362436069, 521288629, 88675123, and
BLOCK_SIZE/sizeof(uint32_t) words are emitted. -/
def get_block (block file_seed : Nat) : List Nat :=
  wordsToBytes
    (xsWords (crc global_seed file_seed block) 362436069 521288629 88675123 (BLOCK_SIZE / 4))

/-- A registered test file: the testfile_t fields used by the read path
(testfuse.c lines 84-89). -/
structure TestFile where
  name : String
  size : Nat
  seed : Nat

/-- The while loop of fop_read (testfuse.c lines 255-283), producing the bytes
written to buf.  block = abs_offset >> BLOCK_SHIFT truncated to uint32_t
(line 259), offset = abs_offset & OFFSET_MASK (line 260).  The aligned branch
(lines 262-267) emits a whole block; the other branch (lines 269-281) emits
min(size, BLOCK_SIZE - offset) bytes starting at offset within the block. -/
def readLoop (seed abs_offset size : Nat) : List Nat :=
  if h0 : size = 0 then []
  else
    let block := (abs_offset >>> BLOCK_SHIFT) % U32
    let offset := abs_offset &&& OFFSET_MASK
    if hfull : offset = 0 ∧ BLOCK_SIZE ≤ size then
      get_block block seed ++ readLoop seed (abs_offset + BLOCK_SIZE) (size - BLOCK_SIZE)
    else
      let bytes := if size < BLOCK_SIZE - offset then size else BLOCK_SIZE - offset
      ((get_block block seed).drop offset).take bytes ++
        readLoop seed (abs_offset + bytes) (size - bytes)
termination_by size
decreasing_by
· have hB : BLOCK_SIZE = 65536 := rfl
  omega
· have hoff : abs_offset &&& OFFSET_MASK ≤ OFFSET_MASK := Nat.and_le_right
  have hB : BLOCK_SIZE = 65536 := rfl
  have hM : OFFSET_MASK = 65535 := rfl
  split <;> omega

/-- fop_read for a resolved file (testfuse.c lines 249-286): first the request
size is clamped (lines 249-252; all in unsigned 64-bit arithmetic, so
abs_offset + size wraps modulo 2 ^ 64 and the subtraction
testfile->size - abs_offset wraps modulo 2 ^ 64), then the loop runs and
orig_size is returned.  The result is (bytes written to buf, orig_size). -/
def fop_read (f : TestFile) (abs_offset size : Nat) : List Nat × Nat :=
  let clamped := if (abs_offset + size) % U64 > f.size then sub64 f.size abs_offset else size
  (readLoop f.seed abs_offset clamped, clamped)

/-- The registration-time validation of main (testfuse.c lines 328-348): a
parsed (size, seed) pair is accepted exactly when size != 0 (lines 338-341)
and seed != 0 (lines 344-348); no upper bound on size is checked. -/
def registerAccepts (size seed : Nat) : Bool :=
  size != 0 && seed != 0

/-- Modelled from the spec wording of the Read/Generate consistency property:
the concatenation of the n consecutive blocks generated by get_block starting
at block index first. -/
def concatBlocks (seed first : Nat) : Nat → List Nat
  | 0 => []
  | n + 1 => get_block first seed ++ concatBlocks seed (first + 1) n

/-- Modelled from the spec wording: the number of blocks covering the byte
range [off, off + len). -/
def coveringCount (off len : Nat) : Nat :=
  (off % BLOCK_SIZE + len + (BLOCK_SIZE - 1)) / BLOCK_SIZE

/-- Modelled from the spec wording: generate the covering blocks and slice
their concatenation at [off, off + len). -/
def specSlice (seed off len : Nat) : List Nat :=
  ((concatBlocks seed (off / BLOCK_SIZE) (coveringCount off len)).drop
    (off % BLOCK_SIZE)).take len

/-- Modelled from the spec claim wording for the mixing function: the same
bit-serial division loop as crcStep, except that the block word is refilled
at the start of iteration 64 (the start of the final third of the
96-iteration loop) instead of iteration 32. -/
def crcStepRefill64 (block i : Nat) (p : Nat × Nat) : Nat × Nat :=
  let input := p.1
  let inputNext := if i = 64 then block else p.2
  let inputX := if input &&& msb_mask ≠ 0 then input ^^^ divisor else input
  let inputNextX := if input &&& msb_mask ≠ 0 then inputNext ^^^ divisor_next else inputNext
  let inputS := (inputX <<< 1) % U32
  let inputC := if inputNextX &&& msb_mask ≠ 0 then inputS ||| 1 else inputS
  (inputC, (inputNextX <<< 1) % U32)

/-- Iteration of crcStepRefill64. -/
def crcIterRefill64 (block : Nat) : Nat → Nat × Nat → Nat × Nat
  | 0, p => p
  | n + 1, p => crcStepRefill64 block n (crcIterRefill64 block n p)

/-- Modelled from the spec claim wording: the mixing function with the block
index refilled only at the start of the final third of the loop. -/
def crcRefill64 (gseed fseed block : Nat) : Nat :=
  (crcIterRefill64 (block % U32) (3 * 4 * 8) (gseed % U32, fseed % U32)).1

/-- Modelled from the spec wording of the expansion step: a 4-word xorshift
generator with state (a, b, c, d); each step computes t = a ^ (a << 11),
rotates the four state words, sets d = d ^ (d >> 19) ^ (t ^ (t >> 8)) and
emits the new d as the next output word; all arithmetic unsigned 32-bit
modular with logical shifts. -/
def specXorshiftStream (a b c d : Nat) : Nat → List Nat
  | 0 => []
  | n + 1 =>
    let t := a ^^^ ((a <<< 11) % U32)
    let d2 := d ^^^ (d >>> 19) ^^^ (t ^^^ (t >>> 8))
    d2 :: specXorshiftStream b c d d2 n

/-- The first word emitted by the xorshift expansion for mixing result x. -/
def firstWord (x : Nat) : Nat :=
  let t := x ^^^ ((x <<< 11) % U32)
  88675123 ^^^ (88675123 >>> 19) ^^^ (t ^^^ (t >>> 8))

/-- Columns of the inverse of the GF(2) matrix of the linear map
d ↦ crc 0 0 d on 32-bit values. -/
def crcInvTable : List Nat :=
  [0xcbf1acda, 0x93224403, 0x228595b1, 0x450b2b62, 0x8a1656c4, 0x10edb03f,
   0x21db607e, 0x43b6c0fc, 0x876d81f8, 0x0a1a1e47, 0x14343c8e, 0x2868791c,
   0x50d0f238, 0xa1a1e470, 0x4782d557, 0x8f05aaae, 0x1aca48eb, 0x359491d6,
   0x6b2923ac, 0xd6524758, 0xa8659307, 0x540a3bb9, 0xa8147772, 0x54e9f353,
   0xa9d3e6a6, 0x5766d0fb, 0xaecda1f6, 0x595a5e5b, 0xb2b4bcb6, 0x61a864db,
   0xc350c9b6, 0x82608edb]

/-- mvAux tbl y js xors together the table entries of tbl at the positions
j in js where bit j of y is set. -/
def mvAux (tbl : List Nat) (y : Nat) : List Nat → Nat
  | [] => 0
  | j :: js => (if y.testBit j then tbl.getD j 0 else 0) ^^^ mvAux tbl y js

/-- The GF(2)-linear map given by a table of 32 columns. -/
def mv (tbl : List Nat) (y : Nat) : Nat :=
  mvAux tbl y (List.range 32)

/-- Componentwise xor on the crc loop state. -/
def pairXor (p q : Nat × Nat) : Nat × Nat :=
  (p.1 ^^^ q.1, p.2 ^^^ q.2)

/-! ### Basic length and normalization lemmas -/

theorem wordsToBytes_length (ws : List Nat) : (wordsToBytes ws).length = 4 * ws.length := by
  induction ws with
  | nil => rfl
  | cons w ws ih => simp [wordsToBytes, ih]; ring

theorem xsWords_length (x y z w n : Nat) : (xsWords x y z w n).length = n := by
  induction n generalizing x y z w with
  | zero => rfl
  | succ n ih => simp [xsWords, ih]

theorem get_block_length (b s : Nat) : (get_block b s).length = BLOCK_SIZE := by
  rw [get_block, wordsToBytes_length, xsWords_length]
  rfl

theorem crc_mod (g s b : Nat) : crc g s (b % U32) = crc g s b := by
  unfold crc
  rw [Nat.mod_mod_of_dvd _ dvd_rfl]

theorem get_block_mod (b s : Nat) : get_block (b % U32) s = get_block b s := by
  unfold get_block
  rw [crc_mod]

theorem and_mask_eq_mod (a : Nat) : a &&& OFFSET_MASK = a % BLOCK_SIZE := by
  have h : OFFSET_MASK = 2 ^ 16 - 1 := rfl
  have h2 : BLOCK_SIZE = 2 ^ 16 := rfl
  rw [h, h2, Nat.and_pow_two_sub_one_eq_mod]

theorem shiftr_eq_div (a : Nat) : a >>> BLOCK_SHIFT = a / BLOCK_SIZE := by
  have h : BLOCK_SHIFT = 16 := rfl
  have h2 : BLOCK_SIZE = 2 ^ 16 := rfl
  rw [h, h2, Nat.shiftRight_eq_div_pow]

theorem readLoop_block_arg (seed off : Nat) :
    get_block ((off >>> BLOCK_SHIFT) % U32) seed = get_block (off / BLOCK_SIZE) seed := by
  rw [get_block_mod, shiftr_eq_div]

theorem readLoop_length (seed : Nat) : ∀ size off, (readLoop seed off size).length = size := by
  intro size
  induction size using Nat.strong_induction_on with
  | _ size ih =>
    intro off
    rw [readLoop]
    split
    · simp [*]
    · rename_i hsz
      dsimp only
      split
      · rename_i hfull
        have hB : BLOCK_SIZE = 65536 := rfl
        simp only [List.length_append, get_block_length, ih (size - BLOCK_SIZE) (by omega)]
        omega
      · rename_i hfull
        have hoff : off &&& OFFSET_MASK ≤ OFFSET_MASK := Nat.and_le_right
        have hB : BLOCK_SIZE = 65536 := rfl
        have hM : OFFSET_MASK = 65535 := rfl
        set bytes := if size < BLOCK_SIZE - (off &&& OFFSET_MASK) then size
          else BLOCK_SIZE - (off &&& OFFSET_MASK) with hbytes
        have hb1 : 1 ≤ bytes := by rw [hbytes]; split <;> omega
        have hble : bytes ≤ BLOCK_SIZE - (off &&& OFFSET_MASK) := by rw [hbytes]; split <;> omega
        have hbsz : bytes ≤ size := by rw [hbytes]; split <;> omega
        simp only [List.length_append, List.length_take, List.length_drop, get_block_length,
          ih (size - bytes) (by omega)]
        rw [Nat.min_eq_left hble]
        omega

/-! ### Decomposition of the spec-side slice of concatenated blocks -/

theorem specSlice_zero (seed off : Nat) : specSlice seed off 0 = [] := by
  unfold specSlice
  rw [List.take_zero]

theorem specSlice_full (seed off size : Nat) (hr : off % BLOCK_SIZE = 0)
    (hsz : BLOCK_SIZE ≤ size) :
    specSlice seed off size =
      get_block (off / BLOCK_SIZE) seed ++
        specSlice seed (off + BLOCK_SIZE) (size - BLOCK_SIZE) := by
  have hB : BLOCK_SIZE = 65536 := rfl
  have hcc : coveringCount off size = coveringCount (off + BLOCK_SIZE) (size - BLOCK_SIZE) + 1 := by
    unfold coveringCount
    simp only [hB] at *
    omega
  have hdiv : (off + BLOCK_SIZE) / BLOCK_SIZE = off / BLOCK_SIZE + 1 := by
    simp only [hB] at *
    omega
  have hmod : (off + BLOCK_SIZE) % BLOCK_SIZE = 0 := by
    simp only [hB] at *
    omega
  unfold specSlice
  rw [hcc, hdiv, hmod, hr, List.drop_zero, List.drop_zero, concatBlocks,
    List.take_append_eq_append_take, get_block_length,
    List.take_of_length_le (by rw [get_block_length]; exact hsz)]

theorem specSlice_part (seed off size bytes : Nat) (hsz : size ≠ 0)
    (hbytes : bytes = if size < BLOCK_SIZE - off % BLOCK_SIZE then size
      else BLOCK_SIZE - off % BLOCK_SIZE) :
    specSlice seed off size =
      ((get_block (off / BLOCK_SIZE) seed).drop (off % BLOCK_SIZE)).take bytes ++
        specSlice seed (off + bytes) (size - bytes) := by
  have hB : BLOCK_SIZE = 65536 := rfl
  have hrlt : off % BLOCK_SIZE < BLOCK_SIZE := Nat.mod_lt off (by rw [hB]; omega)
  by_cases hc : size < BLOCK_SIZE - off % BLOCK_SIZE
  · -- the request ends strictly inside the first covering block
    have hbsz : bytes = size := by rw [hbytes, if_pos hc]
    subst hbsz
    have hm : coveringCount off bytes = (coveringCount off bytes - 1) + 1 := by
      unfold coveringCount
      simp only [hB] at *
      omega
    unfold specSlice
    rw [Nat.sub_self, List.take_zero, List.append_nil, hm, concatBlocks,
      List.drop_append_eq_append_drop, get_block_length,
      Nat.sub_eq_zero_of_le (le_of_lt hrlt), List.drop_zero,
      List.take_append_eq_append_take, List.length_drop, get_block_length]
    have hz : bytes - (BLOCK_SIZE - off % BLOCK_SIZE) = 0 := by omega
    rw [hz, List.take_zero, List.append_nil]
  · -- the request reaches the end of the first covering block
    have hbsz : bytes = BLOCK_SIZE - off % BLOCK_SIZE := by rw [hbytes, if_neg hc]
    subst hbsz
    have hcc : coveringCount off size =
        coveringCount (off + (BLOCK_SIZE - off % BLOCK_SIZE))
          (size - (BLOCK_SIZE - off % BLOCK_SIZE)) + 1 := by
      unfold coveringCount
      simp only [hB] at *
      omega
    have hdivmod := Nat.div_add_mod off BLOCK_SIZE
    have hdiv : (off + (BLOCK_SIZE - off % BLOCK_SIZE)) / BLOCK_SIZE = off / BLOCK_SIZE + 1 := by
      simp only [hB] at hdivmod hrlt ⊢
      omega
    have hmod : (off + (BLOCK_SIZE - off % BLOCK_SIZE)) % BLOCK_SIZE = 0 := by
      simp only [hB] at hdivmod hrlt ⊢
      omega
    have hlen : ((get_block (off / BLOCK_SIZE) seed).drop (off % BLOCK_SIZE)).length =
        BLOCK_SIZE - off % BLOCK_SIZE := by
      rw [List.length_drop, get_block_length]
    unfold specSlice
    rw [hcc, hdiv, hmod, List.drop_zero, concatBlocks,
      List.drop_append_eq_append_drop, get_block_length,
      Nat.sub_eq_zero_of_le (le_of_lt hrlt), List.drop_zero,
      List.take_append_eq_append_take, List.length_drop, get_block_length]
    congr 1
    rw [List.take_of_length_le (by rw [hlen]; omega),
      List.take_of_length_le (by rw [hlen])]

/-- Core refinement: the fop_read loop produces exactly the slice, at
[off, off + size), of the concatenation of the covering generated blocks. -/
theorem readLoop_eq_specSlice (seed : Nat) :
    ∀ size off, readLoop seed off size = specSlice seed off size := by
  intro size
  induction size using Nat.strong_induction_on with
  | _ size ih =>
    intro off
    rw [readLoop]
    split
    · rename_i h0
      rw [h0, specSlice_zero]
    · rename_i hsz
      dsimp only
      split
      · rename_i hfull
        obtain ⟨hoff0, hsize⟩ := hfull
        rw [and_mask_eq_mod] at hoff0
        have hB : BLOCK_SIZE = 65536 := rfl
        rw [readLoop_block_arg, ih (size - BLOCK_SIZE) (by omega) (off + BLOCK_SIZE),
          specSlice_full seed off size hoff0 hsize]
      · rename_i hfull
        rw [and_mask_eq_mod, readLoop_block_arg]
        set bytes := if size < BLOCK_SIZE - off % BLOCK_SIZE then size
          else BLOCK_SIZE - off % BLOCK_SIZE with hbytes
        have hB : BLOCK_SIZE = 65536 := rfl
        have hble : 1 ≤ bytes ∧ bytes ≤ size := by
          have hrlt : off % BLOCK_SIZE < BLOCK_SIZE := Nat.mod_lt off (by rw [hB]; omega)
          rw [hbytes]
          split <;> omega
        rw [ih (size - bytes) (by omega) (off + bytes),
          specSlice_part seed off size bytes hsz hbytes]

/-! ### fop_read level helpers -/

theorem readLoop_zero (seed off : Nat) : readLoop seed off 0 = [] := by
  rw [readLoop]
  simp

theorem fop_read_noclamp (f : TestFile) (off len : Nat) (hsize : f.size < U64)
    (hin : off + len ≤ f.size) :
    fop_read f off len = (readLoop f.seed off len, len) := by
  unfold fop_read
  have hU : U64 = 18446744073709551616 := rfl
  rw [hU] at hsize ⊢
  rw [if_neg (by omega)]

theorem fop_read_clamped (f : TestFile) (off len : Nat) (hsize : f.size < U64)
    (hsum : off + len < U64) (hoff : off ≤ f.size) (hover : f.size < off + len) :
    fop_read f off len = (readLoop f.seed off (f.size - off), f.size - off) := by
  unfold fop_read sub64
  have hU : U64 = 18446744073709551616 := rfl
  rw [hU] at hsize hsum ⊢
  rw [if_pos (by omega)]
  have hsub : (f.size + 18446744073709551616 - off) % 18446744073709551616 = f.size - off := by
    omega
  rw [hsub]

/-! ### Bounds for the crc mixing result and the xorshift words -/

theorem mod_U32_lt (a : Nat) : a % U32 < U32 :=
  Nat.mod_lt _ (Nat.two_pow_pos 32)

theorem or_one_lt (x : Nat) (hx : x < U32) : x ||| 1 < U32 := by
  have hU : U32 = 2 ^ 32 := rfl
  rw [hU] at *
  exact Nat.or_lt_two_pow hx (by norm_num)

theorem ite_or_one_lt (c : Prop) [Decidable c] (x : Nat) (hx : x < U32) :
    (if c then x ||| 1 else x) < U32 := by
  by_cases h : c
  · rw [if_pos h]; exact or_one_lt x hx
  · rw [if_neg h]; exact hx

theorem crcStep_fst_lt (b i : Nat) (p : Nat × Nat) : (crcStep b i p).1 < U32 := by
  unfold crcStep
  dsimp only
  exact ite_or_one_lt _ _ (mod_U32_lt _)

theorem crcIter_succ (b n : Nat) (p : Nat × Nat) :
    crcIter b (n + 1) p = crcStep b n (crcIter b n p) := rfl

theorem crc_lt (g s b : Nat) : crc g s b < U32 := by
  unfold crc
  have h96 : (3 * 4 * 8 : Nat) = 95 + 1 := rfl
  rw [h96, crcIter_succ]
  exact crcStep_fst_lt ..

theorem shiftRight_le_self (a k : Nat) : a >>> k ≤ a := by
  rw [Nat.shiftRight_eq_div_pow]
  exact Nat.div_le_self ..

theorem xsWords_eq_spec : ∀ (n a b c d : Nat),
    xsWords a b c d n = specXorshiftStream a b c d n := by
  intro n
  induction n with
  | zero => intro a b c d; rfl
  | succ n ih =>
    intro a b c d
    simp only [xsWords, specXorshiftStream]
    rw [ih]

theorem specXorshiftStream_length : ∀ (n a b c d : Nat),
    (specXorshiftStream a b c d n).length = n := by
  intro n
  induction n with
  | zero => intro a b c d; rfl
  | succ n ih =>
    intro a b c d
    simp only [specXorshiftStream, List.length_cons, ih]

theorem specXorshiftStream_bound : ∀ (n a b c d : Nat), a < U32 → b < U32 → c < U32 →
    d < U32 → ∀ w ∈ specXorshiftStream a b c d n, w < U32 := by
  have hU : U32 = 2 ^ 32 := rfl
  intro n
  induction n with
  | zero => intro a b c d _ _ _ _ w hw; simp [specXorshiftStream] at hw
  | succ n ih =>
    intro a b c d ha hb hc hd w hw
    have ht : a ^^^ ((a <<< 11) % U32) < U32 := by
      rw [hU] at ha ⊢
      exact Nat.xor_lt_two_pow ha (hU ▸ mod_U32_lt _)
    have ht8 : (a ^^^ ((a <<< 11) % U32)) >>> 8 < U32 := lt_of_le_of_lt (shiftRight_le_self ..) ht
    have hd19 : d >>> 19 < U32 := lt_of_le_of_lt (shiftRight_le_self ..) hd
    have hw2 : d ^^^ (d >>> 19) ^^^
        ((a ^^^ ((a <<< 11) % U32)) ^^^ ((a ^^^ ((a <<< 11) % U32)) >>> 8)) < U32 := by
      rw [hU] at *
      exact Nat.xor_lt_two_pow (Nat.xor_lt_two_pow hd hd19) (Nat.xor_lt_two_pow ht ht8)
    simp only [specXorshiftStream, List.mem_cons] at hw
    rcases hw with h | h
    · rw [h]; exact hw2
    · exact ih b c d _ hb hc hd hw2 w h

/-! ### xor and shift algebra over Nat, used for the GF(2) affinity of crc -/

theorem xor_cancel_left (a b : Nat) : a ^^^ (a ^^^ b) = b := by
  rw [← Nat.xor_assoc, Nat.xor_self, Nat.zero_xor]

theorem xor_telescope (u a b : Nat) : (u ^^^ a) ^^^ (a ^^^ b) = u ^^^ b := by
  rw [Nat.xor_assoc, xor_cancel_left]

theorem xor_left_comm (a b c : Nat) : a ^^^ (b ^^^ c) = b ^^^ (a ^^^ c) := by
  rw [← Nat.xor_assoc, Nat.xor_comm a b, Nat.xor_assoc]

theorem xor_mod_U32 (a b : Nat) : (a ^^^ b) % U32 = (a % U32) ^^^ (b % U32) := by
  have hU : U32 = 2 ^ 32 := rfl
  rw [hU]
  apply Nat.eq_of_testBit_eq
  intro j
  simp only [Nat.testBit_mod_two_pow, Nat.testBit_xor, Bool.and_xor_distrib_left]

theorem sr_xor (a b k : Nat) : (a ^^^ b) >>> k = (a >>> k) ^^^ (b >>> k) := by
  apply Nat.eq_of_testBit_eq
  intro j
  simp only [Nat.testBit_shiftRight, Nat.testBit_xor]

theorem slm_xor (a b k : Nat) :
    ((a ^^^ b) <<< k) % U32 = ((a <<< k) % U32) ^^^ ((b <<< k) % U32) := by
  have hU : U32 = 2 ^ 32 := rfl
  rw [hU]
  apply Nat.eq_of_testBit_eq
  intro j
  simp only [Nat.testBit_mod_two_pow, Nat.testBit_shiftLeft, Nat.testBit_xor,
    Bool.and_xor_distrib_left]

theorem slm_slm (a j k : Nat) :
    (((a <<< j) % U32) <<< k) % U32 = (a <<< (j + k)) % U32 := by
  have hU : U32 = 2 ^ 32 := rfl
  rw [hU, Nat.shiftLeft_eq, Nat.shiftLeft_eq, Nat.shiftLeft_eq, Nat.mod_mul_mod,
    Nat.mul_assoc, ← pow_add]

theorem shiftLeft_big_mod (a k : Nat) (hk : 32 ≤ k) : (a <<< k) % U32 = 0 := by
  have hU : U32 = 2 ^ 32 := rfl
  rw [hU, Nat.shiftLeft_eq]
  exact Nat.mod_eq_zero_of_dvd (Dvd.dvd.mul_left (pow_dvd_pow 2 hk) a)

/-! ### Injectivity of the first xorshift output word in the mixing result -/

theorem u_inv (t : Nat) (ht : t < U32) :
    ((t ^^^ (t >>> 8)) ^^^ ((t ^^^ (t >>> 8)) >>> 8)) ^^^
        (((t ^^^ (t >>> 8)) >>> 16) ^^^ ((t ^^^ (t >>> 8)) >>> 24)) = t := by
  have hU : U32 = 2 ^ 32 := rfl
  have h32 : t >>> 32 = 0 := by
    rw [Nat.shiftRight_eq_div_pow]
    exact Nat.div_eq_of_lt (hU ▸ ht)
  rw [sr_xor t (t >>> 8) 8, sr_xor t (t >>> 8) 16, sr_xor t (t >>> 8) 24,
    show (t >>> 8) >>> 8 = t >>> 16 by rw [← Nat.shiftRight_add],
    show (t >>> 8) >>> 16 = t >>> 24 by rw [← Nat.shiftRight_add],
    show (t >>> 8) >>> 24 = t >>> 32 by rw [← Nat.shiftRight_add],
    h32, Nat.xor_zero, xor_telescope t (t >>> 8) (t >>> 16),
    Nat.xor_assoc (t >>> 16) (t >>> 24) (t >>> 24), Nat.xor_self, Nat.xor_zero,
    Nat.xor_assoc, Nat.xor_self, Nat.xor_zero]

theorem t_inv (x : Nat) :
    ((x ^^^ ((x <<< 11) % U32)) ^^^ (((x ^^^ ((x <<< 11) % U32)) <<< 11) % U32)) ^^^
        (((x ^^^ ((x <<< 11) % U32)) <<< 22) % U32) = x := by
  rw [slm_xor x ((x <<< 11) % U32) 11, slm_slm x 11 11,
    slm_xor x ((x <<< 11) % U32) 22, slm_slm x 11 22,
    show (11 + 11 : Nat) = 22 from rfl, show (11 + 22 : Nat) = 33 from rfl,
    shiftLeft_big_mod x 33 (by omega), Nat.xor_zero,
    xor_telescope x ((x <<< 11) % U32) ((x <<< 22) % U32),
    Nat.xor_assoc, Nat.xor_self, Nat.xor_zero]

theorem firstWord_inj (x y : Nat) (hx : x < U32) (hy : y < U32)
    (h : firstWord x = firstWord y) : x = y := by
  unfold firstWord at h
  dsimp only at h
  have hU : U32 = 2 ^ 32 := rfl
  have htx : x ^^^ ((x <<< 11) % U32) < U32 := by
    rw [hU] at hx ⊢
    exact Nat.xor_lt_two_pow hx (hU ▸ mod_U32_lt _)
  have hty : y ^^^ ((y <<< 11) % U32) < U32 := by
    rw [hU] at hy ⊢
    exact Nat.xor_lt_two_pow hy (hU ▸ mod_U32_lt _)
  have hu : (x ^^^ ((x <<< 11) % U32)) ^^^ ((x ^^^ ((x <<< 11) % U32)) >>> 8) =
      (y ^^^ ((y <<< 11) % U32)) ^^^ ((y ^^^ ((y <<< 11) % U32)) >>> 8) := by
    calc (x ^^^ ((x <<< 11) % U32)) ^^^ ((x ^^^ ((x <<< 11) % U32)) >>> 8) =
        (88675123 ^^^ (88675123 >>> 19)) ^^^ ((88675123 ^^^ (88675123 >>> 19)) ^^^
          ((x ^^^ ((x <<< 11) % U32)) ^^^ ((x ^^^ ((x <<< 11) % U32)) >>> 8))) := by
          rw [xor_cancel_left]
      _ = (88675123 ^^^ (88675123 >>> 19)) ^^^ ((88675123 ^^^ (88675123 >>> 19)) ^^^
          ((y ^^^ ((y <<< 11) % U32)) ^^^ ((y ^^^ ((y <<< 11) % U32)) >>> 8))) := by
          rw [h]
      _ = (y ^^^ ((y <<< 11) % U32)) ^^^ ((y ^^^ ((y <<< 11) % U32)) >>> 8) := by
          rw [xor_cancel_left]
  have ht : x ^^^ ((x <<< 11) % U32) = y ^^^ ((y <<< 11) % U32) := by
    calc x ^^^ ((x <<< 11) % U32) =
        (((x ^^^ ((x <<< 11) % U32)) ^^^ ((x ^^^ ((x <<< 11) % U32)) >>> 8)) ^^^
          (((x ^^^ ((x <<< 11) % U32)) ^^^ ((x ^^^ ((x <<< 11) % U32)) >>> 8)) >>> 8)) ^^^
          ((((x ^^^ ((x <<< 11) % U32)) ^^^ ((x ^^^ ((x <<< 11) % U32)) >>> 8)) >>> 16) ^^^
            (((x ^^^ ((x <<< 11) % U32)) ^^^ ((x ^^^ ((x <<< 11) % U32)) >>> 8)) >>> 24)) := by
          rw [u_inv _ htx]
      _ = (((y ^^^ ((y <<< 11) % U32)) ^^^ ((y ^^^ ((y <<< 11) % U32)) >>> 8)) ^^^
          (((y ^^^ ((y <<< 11) % U32)) ^^^ ((y ^^^ ((y <<< 11) % U32)) >>> 8)) >>> 8)) ^^^
          ((((y ^^^ ((y <<< 11) % U32)) ^^^ ((y ^^^ ((y <<< 11) % U32)) >>> 8)) >>> 16) ^^^
            (((y ^^^ ((y <<< 11) % U32)) ^^^ ((y ^^^ ((y <<< 11) % U32)) >>> 8)) >>> 24)) := by
          rw [hu]
      _ = y ^^^ ((y <<< 11) % U32) := u_inv _ hty
  calc x = ((x ^^^ ((x <<< 11) % U32)) ^^^ (((x ^^^ ((x <<< 11) % U32)) <<< 11) % U32)) ^^^
        (((x ^^^ ((x <<< 11) % U32)) <<< 22) % U32) := (t_inv x).symm
    _ = ((y ^^^ ((y <<< 11) % U32)) ^^^ (((y ^^^ ((y <<< 11) % U32)) <<< 11) % U32)) ^^^
        (((y ^^^ ((y <<< 11) % U32)) <<< 22) % U32) := by rw [ht]
    _ = y := t_inv y

/-! ### GF(2) affinity of the crc loop -/

theorem and_msb_ite {α : Sort u_1} (a : Nat) (X Y : α) :
    (if a &&& msb_mask ≠ 0 then X else Y) = (if a.testBit 31 then X else Y) := by
  have hm : msb_mask = 2 ^ 31 := rfl
  rw [hm, Nat.and_two_pow]
  cases h : a.testBit 31 <;> simp [h]

theorem cond_xor3 (D : Nat) (c1 c2 c3 : Bool) (x1 x2 x3 : Nat) :
    (if c1 = true then x1 ^^^ D else x1) ^^^ (if c2 = true then x2 ^^^ D else x2) ^^^
      (if c3 = true then x3 ^^^ D else x3) =
    if ((c1.xor c2).xor c3) = true then (x1 ^^^ x2 ^^^ x3) ^^^ D else x1 ^^^ x2 ^^^ x3 := by
  cases c1 <;> cases c2 <;> cases c3 <;>
    simp [Nat.xor_assoc, Nat.xor_comm, xor_left_comm, Nat.xor_self, Nat.xor_zero,
      Nat.zero_xor, xor_cancel_left]

theorem even_or_one (x : Nat) (h : x % 2 = 0) : x ||| 1 = x ^^^ 1 := by
  have h1 : (1 : Nat) = 2 ^ 0 := rfl
  apply Nat.eq_of_testBit_eq
  intro j
  rw [Nat.testBit_or, Nat.testBit_xor, h1, Nat.testBit_two_pow]
  cases j with
  | zero =>
    have hx0 : x.testBit 0 = false := by simp [h]
    rw [hx0]
    rfl
  | succ n => simp

theorem shl1_mod_even (x : Nat) : ((x <<< 1) % U32) % 2 = 0 := by
  have hU : U32 = 4294967296 := rfl
  rw [hU, Nat.shiftLeft_eq]
  omega

theorem xor_even (a b : Nat) (ha : a % 2 = 0) (hb : b % 2 = 0) : (a ^^^ b) % 2 = 0 := by
  have h0 : (a ^^^ b).testBit 0 = false := by
    rw [Nat.testBit_xor]
    simp [ha, hb]
  rw [Nat.testBit_zero, decide_eq_false_iff_not] at h0
  omega

theorem cond_or3 (d1 d2 d3 : Bool) (s1 s2 s3 : Nat) (h1 : s1 % 2 = 0) (h2 : s2 % 2 = 0)
    (h3 : s3 % 2 = 0) :
    (if d1 = true then s1 ||| 1 else s1) ^^^ (if d2 = true then s2 ||| 1 else s2) ^^^
      (if d3 = true then s3 ||| 1 else s3) =
    if ((d1.xor d2).xor d3) = true then (s1 ^^^ s2 ^^^ s3) ||| 1 else s1 ^^^ s2 ^^^ s3 := by
  rw [even_or_one s1 h1, even_or_one s2 h2, even_or_one s3 h3,
    even_or_one (s1 ^^^ s2 ^^^ s3) (xor_even _ _ (xor_even _ _ h1 h2) h3)]
  exact cond_xor3 1 d1 d2 d3 s1 s2 s3

theorem crcStep_core_xor3 (a1 a2 a3 m1 m2 m3 : Nat) :
    ((if (if a1.testBit 31 then m1 ^^^ divisor_next else m1).testBit 31 then
        ((if a1.testBit 31 then a1 ^^^ divisor else a1) <<< 1) % U32 ||| 1
      else ((if a1.testBit 31 then a1 ^^^ divisor else a1) <<< 1) % U32) ^^^
     (if (if a2.testBit 31 then m2 ^^^ divisor_next else m2).testBit 31 then
        ((if a2.testBit 31 then a2 ^^^ divisor else a2) <<< 1) % U32 ||| 1
      else ((if a2.testBit 31 then a2 ^^^ divisor else a2) <<< 1) % U32) ^^^
     (if (if a3.testBit 31 then m3 ^^^ divisor_next else m3).testBit 31 then
        ((if a3.testBit 31 then a3 ^^^ divisor else a3) <<< 1) % U32 ||| 1
      else ((if a3.testBit 31 then a3 ^^^ divisor else a3) <<< 1) % U32),
     (((if a1.testBit 31 then m1 ^^^ divisor_next else m1) <<< 1) % U32) ^^^
     (((if a2.testBit 31 then m2 ^^^ divisor_next else m2) <<< 1) % U32) ^^^
     (((if a3.testBit 31 then m3 ^^^ divisor_next else m3) <<< 1) % U32)) =
    ((if (if (a1 ^^^ a2 ^^^ a3).testBit 31 then (m1 ^^^ m2 ^^^ m3) ^^^ divisor_next
          else m1 ^^^ m2 ^^^ m3).testBit 31 then
        ((if (a1 ^^^ a2 ^^^ a3).testBit 31 then (a1 ^^^ a2 ^^^ a3) ^^^ divisor
          else a1 ^^^ a2 ^^^ a3) <<< 1) % U32 ||| 1
      else ((if (a1 ^^^ a2 ^^^ a3).testBit 31 then (a1 ^^^ a2 ^^^ a3) ^^^ divisor
          else a1 ^^^ a2 ^^^ a3) <<< 1) % U32),
     ((if (a1 ^^^ a2 ^^^ a3).testBit 31 then (m1 ^^^ m2 ^^^ m3) ^^^ divisor_next
          else m1 ^^^ m2 ^^^ m3) <<< 1) % U32) := by
  have hc : ((a1.testBit 31).xor ((a2.testBit 31).xor (a3.testBit 31))) =
      (a1 ^^^ a2 ^^^ a3).testBit 31 := by
    simp [Nat.testBit_xor, Bool.xor_assoc]
  have hX : (if a1.testBit 31 then a1 ^^^ divisor else a1) ^^^
      (if a2.testBit 31 then a2 ^^^ divisor else a2) ^^^
      (if a3.testBit 31 then a3 ^^^ divisor else a3) =
      if (a1 ^^^ a2 ^^^ a3).testBit 31 then (a1 ^^^ a2 ^^^ a3) ^^^ divisor
      else a1 ^^^ a2 ^^^ a3 := by
    rw [cond_xor3 divisor (a1.testBit 31) (a2.testBit 31) (a3.testBit 31) a1 a2 a3,
      show ((a1.testBit 31).xor (a2.testBit 31)).xor (a3.testBit 31) =
        (a1 ^^^ a2 ^^^ a3).testBit 31 by simp [Nat.testBit_xor]]
  have hM : (if a1.testBit 31 then m1 ^^^ divisor_next else m1) ^^^
      (if a2.testBit 31 then m2 ^^^ divisor_next else m2) ^^^
      (if a3.testBit 31 then m3 ^^^ divisor_next else m3) =
      if (a1 ^^^ a2 ^^^ a3).testBit 31 then (m1 ^^^ m2 ^^^ m3) ^^^ divisor_next
      else m1 ^^^ m2 ^^^ m3 := by
    rw [cond_xor3 divisor_next (a1.testBit 31) (a2.testBit 31) (a3.testBit 31) m1 m2 m3,
      show ((a1.testBit 31).xor (a2.testBit 31)).xor (a3.testBit 31) =
        (a1 ^^^ a2 ^^^ a3).testBit 31 by simp [Nat.testBit_xor]]
  rw [Prod.mk.injEq]
  constructor
  · have hd : (((if a1.testBit 31 then m1 ^^^ divisor_next else m1).testBit 31).xor
        ((if a2.testBit 31 then m2 ^^^ divisor_next else m2).testBit 31)).xor
        ((if a3.testBit 31 then m3 ^^^ divisor_next else m3).testBit 31) =
        (if (a1 ^^^ a2 ^^^ a3).testBit 31 then (m1 ^^^ m2 ^^^ m3) ^^^ divisor_next
          else m1 ^^^ m2 ^^^ m3).testBit 31 := by
      rw [← Nat.testBit_xor, ← Nat.testBit_xor, hM]
    have hs : (((if a1.testBit 31 then a1 ^^^ divisor else a1) <<< 1) % U32) ^^^
        (((if a2.testBit 31 then a2 ^^^ divisor else a2) <<< 1) % U32) ^^^
        (((if a3.testBit 31 then a3 ^^^ divisor else a3) <<< 1) % U32) =
        ((if (a1 ^^^ a2 ^^^ a3).testBit 31 then (a1 ^^^ a2 ^^^ a3) ^^^ divisor
          else a1 ^^^ a2 ^^^ a3) <<< 1) % U32 := by
      rw [← slm_xor, ← slm_xor, hX]
    rw [cond_or3 _ _ _ _ _ _ (shl1_mod_even _) (shl1_mod_even _) (shl1_mod_even _), hd, hs]
  · rw [← slm_xor, ← slm_xor, hM]

theorem crcStep_xor3 (b1 b2 b3 i : Nat) (p1 p2 p3 : Nat × Nat) :
    pairXor (pairXor (crcStep b1 i p1) (crcStep b2 i p2)) (crcStep b3 i p3) =
      crcStep (b1 ^^^ b2 ^^^ b3) i (pairXor (pairXor p1 p2) p3) := by
  obtain ⟨a1, n1⟩ := p1
  obtain ⟨a2, n2⟩ := p2
  obtain ⟨a3, n3⟩ := p3
  unfold crcStep pairXor
  dsimp only
  simp only [and_msb_ite]
  by_cases hi : i = 32
  · simp only [hi, eq_self_iff_true, if_true]
    exact crcStep_core_xor3 a1 a2 a3 b1 b2 b3
  · simp only [if_neg hi]
    exact crcStep_core_xor3 a1 a2 a3 n1 n2 n3

theorem crcIter_xor3 (b1 b2 b3 : Nat) (p1 p2 p3 : Nat × Nat) : ∀ n,
    pairXor (pairXor (crcIter b1 n p1) (crcIter b2 n p2)) (crcIter b3 n p3) =
      crcIter (b1 ^^^ b2 ^^^ b3) n (pairXor (pairXor p1 p2) p3) := by
  intro n
  induction n with
  | zero => rfl
  | succ n ih =>
    rw [crcIter_succ, crcIter_succ, crcIter_succ, crcIter_succ, crcStep_xor3, ih]

theorem crc_zero : crc 0 0 0 = 0 := by decide

theorem crc_xor_relation (g s x y : Nat) :
    crc g s x ^^^ crc g s y = crc 0 0 (x ^^^ y) := by
  have h := crcIter_xor3 (x % U32) (y % U32) ((x ^^^ y) % U32)
    (g % U32, s % U32) (g % U32, s % U32) (0 % U32, 0 % U32) (3 * 4 * 8)
  have hb : (x % U32) ^^^ (y % U32) ^^^ ((x ^^^ y) % U32) = 0 := by
    rw [xor_mod_U32, Nat.xor_self]
  have hp : pairXor (pairXor (g % U32, s % U32) (g % U32, s % U32)) (0 % U32, 0 % U32) =
      (0, 0) := by
    unfold pairXor
    simp [Nat.xor_self, Nat.zero_mod]
  rw [hb, hp] at h
  have h1 := congrArg Prod.fst h
  unfold pairXor at h1
  dsimp only at h1
  have hz : (crcIter 0 (3 * 4 * 8) (0, 0)).1 = 0 := by decide
  rw [hz] at h1
  have hcrc : crc g s x ^^^ crc g s y ^^^ crc 0 0 (x ^^^ y) = 0 := h1
  exact Nat.xor_eq_zero.mp hcrc

theorem crc00_linear (x y : Nat) : crc 0 0 (x ^^^ y) = crc 0 0 x ^^^ crc 0 0 y :=
  (crc_xor_relation 0 0 x y).symm

theorem mvAux_xor (tbl : List Nat) (x y : Nat) : ∀ js,
    mvAux tbl (x ^^^ y) js = mvAux tbl x js ^^^ mvAux tbl y js := by
  intro js
  induction js with
  | nil => simp [mvAux]
  | cons j js ih =>
    simp only [mvAux, Nat.testBit_xor, ih]
    cases hx : x.testBit j <;> cases hy : y.testBit j <;>
      simp [Nat.xor_assoc, Nat.xor_comm, xor_left_comm, Nat.xor_self, Nat.zero_xor,
        Nat.xor_zero, xor_cancel_left]

theorem mv_xor (tbl : List Nat) (x y : Nat) :
    mv tbl (x ^^^ y) = mv tbl x ^^^ mv tbl y :=
  mvAux_xor tbl x y (List.range 32)

theorem mv_zero_table : mv crcInvTable 0 = 0 := by decide

theorem mv_crc_basis : ∀ j, j < 32 → mv crcInvTable (crc 0 0 (2 ^ j)) = 2 ^ j := by decide

theorem two_pow_add_xor (n r : Nat) (hr : r < 2 ^ n) : (2 ^ n + r) ^^^ 2 ^ n = r := by
  apply Nat.eq_of_testBit_eq
  intro j
  rw [Nat.testBit_xor]
  rcases Nat.lt_trichotomy j n with hj | hj | hj
  · rw [Nat.testBit_two_pow_add_gt hj, Nat.testBit_two_pow_of_ne (by omega), Bool.xor_false]
  · subst hj
    rw [Nat.testBit_two_pow_add_eq, Nat.testBit_two_pow_self, Nat.testBit_lt_two_pow hr]
    rfl
  · have hp : 2 ^ (n + 1) ≤ 2 ^ j := Nat.pow_le_pow_right (by omega) (by omega)
    have hp2 : 2 ^ (n + 1) = 2 * 2 ^ n := by rw [Nat.pow_succ]; ring
    have h1 : 2 ^ n + r < 2 ^ j := by omega
    have h2 : r < 2 ^ j := by omega
    rw [Nat.testBit_lt_two_pow h1, Nat.testBit_two_pow_of_ne (by omega),
      Nat.testBit_lt_two_pow h2]
    rfl

theorem mv_crc_span : ∀ n, n ≤ 32 → ∀ d, d < 2 ^ n → mv crcInvTable (crc 0 0 d) = d := by
  intro n
  induction n with
  | zero =>
    intro _ d hd
    have h0 : d = 0 := by omega
    subst h0
    decide
  | succ n ih =>
    intro hn d hd
    by_cases hlow : d < 2 ^ n
    · exact ih (by omega) d hlow
    · have h2n : 2 ^ n ≤ d := Nat.le_of_not_lt hlow
      have hp2 : 2 ^ (n + 1) = 2 * 2 ^ n := by rw [Nat.pow_succ]; ring
      have hr : d - 2 ^ n < 2 ^ n := by omega
      have hd_eq : d = 2 ^ n + (d - 2 ^ n) := by omega
      have hxor : d ^^^ 2 ^ n = d - 2 ^ n := by
        have h := two_pow_add_xor n (d - 2 ^ n) hr
        rw [← hd_eq] at h
        exact h
      have hx2 : d = 2 ^ n ^^^ (d - 2 ^ n) := by
        rw [← hxor, Nat.xor_comm d (2 ^ n), xor_cancel_left]
      rw [hx2, crc00_linear, mv_xor, mv_crc_basis n (by omega), ih (by omega) _ hr]

theorem crc_inj (g s x y : Nat) (hx : x < U32) (hy : y < U32) (hne : x ≠ y) :
    crc g s x ≠ crc g s y := by
  intro heq
  have hU : U32 = 2 ^ 32 := rfl
  have h0 : crc g s x ^^^ crc g s y = 0 := by rw [heq, Nat.xor_self]
  rw [crc_xor_relation] at h0
  have hd : x ^^^ y < 2 ^ 32 := Nat.xor_lt_two_pow (hU ▸ hx) (hU ▸ hy)
  have hspan := mv_crc_span 32 (le_refl 32) (x ^^^ y) hd
  rw [h0, mv_zero_table] at hspan
  exact hne (Nat.xor_eq_zero.mp hspan.symm)

/-! ### Distinctness of adjacent blocks -/

theorem get_block_head (b s : Nat) :
    get_block b s = (firstWord (crc global_seed s b) &&& 255) ::
      ((firstWord (crc global_seed s b) >>> 8) &&& 255) ::
      ((firstWord (crc global_seed s b) >>> 16) &&& 255) ::
      ((firstWord (crc global_seed s b) >>> 24) &&& 255) ::
      wordsToBytes (xsWords 362436069 521288629 88675123 (firstWord (crc global_seed s b))
        (BLOCK_SIZE / 4 - 1)) := by
  rfl

theorem firstWord_lt (x : Nat) (hx : x < U32) : firstWord x < U32 := by
  unfold firstWord
  dsimp only
  have hU : U32 = 2 ^ 32 := rfl
  have ht : x ^^^ ((x <<< 11) % U32) < U32 := by
    rw [hU] at hx ⊢
    exact Nat.xor_lt_two_pow hx (hU ▸ mod_U32_lt _)
  rw [hU] at ht ⊢
  refine Nat.xor_lt_two_pow (Nat.xor_lt_two_pow (by norm_num) ?_)
    (Nat.xor_lt_two_pow ht (lt_of_le_of_lt (shiftRight_le_self ..) ht))
  exact lt_of_le_of_lt (shiftRight_le_self ..) (by norm_num)

theorem and_255_mod (x : Nat) : x &&& 255 = x % 256 := by
  have h : (255 : Nat) = 2 ^ 8 - 1 := rfl
  rw [h, Nat.and_pow_two_sub_one_eq_mod]

theorem sr8_div (x : Nat) : x >>> 8 = x / 256 := by
  rw [Nat.shiftRight_eq_div_pow]

theorem sr16_div (x : Nat) : x >>> 16 = x / 65536 := by
  rw [Nat.shiftRight_eq_div_pow]

theorem sr24_div (x : Nat) : x >>> 24 = x / 16777216 := by
  rw [Nat.shiftRight_eq_div_pow]

theorem word_bytes_inj (w v : Nat) (hw : w < U32) (hv : v < U32)
    (h0 : w &&& 255 = v &&& 255) (h1 : (w >>> 8) &&& 255 = (v >>> 8) &&& 255)
    (h2 : (w >>> 16) &&& 255 = (v >>> 16) &&& 255)
    (h3 : (w >>> 24) &&& 255 = (v >>> 24) &&& 255) : w = v := by
  have hU : U32 = 4294967296 := rfl
  rw [hU] at hw hv
  rw [and_255_mod, and_255_mod] at h0 h1 h2 h3
  rw [sr8_div, sr8_div] at h1
  rw [sr16_div, sr16_div] at h2
  rw [sr24_div, sr24_div] at h3
  omega

theorem succ_mod_U32_ne (i : Nat) : i % U32 ≠ (i + 1) % U32 := by
  have hU : U32 = 4294967296 := rfl
  rw [hU]
  omega

/-- Adjacent blocks of the same file differ: the crc mixing map is injective
in the block index (by GF(2)-affinity and the explicit inverse table), the
first xorshift output word is injective in the mixing result, and the first
four bytes of the block determine that word. -/
theorem get_block_succ_ne (i s : Nat) : get_block i s ≠ get_block (i + 1) s := by
  intro heq
  have hcrc : crc global_seed s i ≠ crc global_seed s (i + 1) := by
    rw [← crc_mod global_seed s i, ← crc_mod global_seed s (i + 1)]
    exact crc_inj _ _ _ _ (mod_U32_lt i) (mod_U32_lt (i + 1)) (succ_mod_U32_ne i)
  rw [get_block_head, get_block_head] at heq
  simp only [List.cons.injEq] at heq
  obtain ⟨h0, h1, h2, h3, _⟩ := heq
  have hfw : firstWord (crc global_seed s i) = firstWord (crc global_seed s (i + 1)) :=
    word_bytes_inj _ _ (firstWord_lt _ (crc_lt ..)) (firstWord_lt _ (crc_lt ..)) h0 h1 h2 h3
  exact hcrc (firstWord_inj _ _ (crc_lt ..) (crc_lt ..) hfw)

/-! ### Remaining helpers for the claim theorems -/

theorem specXorshiftStream_getD_lt : ∀ (n a b c d k : Nat), a < U32 → b < U32 → c < U32 →
    d < U32 → (specXorshiftStream a b c d n).getD k 0 < U32 := by
  have hU : U32 = 2 ^ 32 := rfl
  intro n
  induction n with
  | zero =>
    intro a b c d k _ _ _ _
    simp only [specXorshiftStream, List.getD_nil]
    rw [hU]
    exact Nat.two_pow_pos 32
  | succ n ih =>
    intro a b c d k ha hb hc hd
    have ht : a ^^^ ((a <<< 11) % U32) < U32 := by
      rw [hU] at ha ⊢
      exact Nat.xor_lt_two_pow ha (hU ▸ mod_U32_lt _)
    have hw2 : d ^^^ (d >>> 19) ^^^
        ((a ^^^ ((a <<< 11) % U32)) ^^^ ((a ^^^ ((a <<< 11) % U32)) >>> 8)) < U32 := by
      rw [hU] at *
      exact Nat.xor_lt_two_pow
        (Nat.xor_lt_two_pow hd (lt_of_le_of_lt (shiftRight_le_self ..) hd))
        (Nat.xor_lt_two_pow ht (lt_of_le_of_lt (shiftRight_le_self ..) ht))
    cases k with
    | zero => simp only [specXorshiftStream, List.getD_cons_zero]; exact hw2
    | succ k => simp only [specXorshiftStream, List.getD_cons_succ]; exact ih b c d _ k hb hc hd hw2

theorem specSlice_boundary :
    specSlice 1 65530 12 = (get_block 0 1).drop 65530 ++ (get_block 1 1).take 6 := by
  have hB : BLOCK_SIZE = 65536 := rfl
  have hcc : coveringCount 65530 12 = 2 := by decide
  have hdiv : 65530 / BLOCK_SIZE = 0 := by decide
  have hmod : 65530 % BLOCK_SIZE = 65530 := by decide
  have hc2 : concatBlocks 1 0 2 = get_block 0 1 ++ (get_block 1 1 ++ []) := rfl
  unfold specSlice
  rw [hcc, hdiv, hmod, hc2, List.append_nil, List.drop_append_eq_append_drop,
    get_block_length, show 65530 - BLOCK_SIZE = 0 from by decide, List.drop_zero,
    List.take_append_eq_append_take, List.length_drop, get_block_length,
    List.take_of_length_le
      (show ((get_block 0 1).drop 65530).length ≤ 12 from by
        rw [List.length_drop, get_block_length]; decide),
    show 12 - (BLOCK_SIZE - 65530) = 6 from by decide]

/-! ### Claim theorems -/

/-- C1: for every registered file and every in-range request, fop_read returns
exactly the bytes obtained by generating the covering blocks with get_block
and slicing their concatenation at [offset, offset + length); in particular,
with seed 1 and BLOCK_SIZE 65536, reading [65530, 65542) equals the last 6
bytes of block 0 concatenated with the first 6 bytes of block 1. -/
theorem read_matches_generated_blocks :
    (∀ (f : TestFile) (off len : Nat), f.size < U64 → off + len ≤ f.size →
      (fop_read f off len).1 = specSlice f.seed off len) ∧
    (fop_read ⟨"t1m", 2 ^ 20, 1⟩ 65530 12).1 =
      (get_block 0 1).drop 65530 ++ (get_block 1 1).take 6 := by
  have hmain : ∀ (f : TestFile) (off len : Nat), f.size < U64 → off + len ≤ f.size →
      (fop_read f off len).1 = specSlice f.seed off len := by
    intro f off len hsize hin
    rw [fop_read_noclamp f off len hsize hin]
    exact readLoop_eq_specSlice f.seed len off
  refine ⟨hmain, ?_⟩
  rw [hmain ⟨"t1m", 2 ^ 20, 1⟩ 65530 12 (by norm_num [U64]) (by norm_num)]
  exact specSlice_boundary

/-- Witness for C1 at a concrete in-range request. -/
theorem read_matches_generated_blocks_witness :
    (fop_read ⟨"w", 100, 1⟩ 10 20).1 = specSlice 1 10 20 :=
  read_matches_generated_blocks.1 ⟨"w", 100, 1⟩ 10 20 (by norm_num [U64]) (by norm_num)

/-- C2: generation and reading are pure: two invocations of get_block with the
same (block, file_seed) yield identical byte sequences, and repeated identical
reads on the same file return byte-for-byte identical data. -/
theorem generate_block_deterministic :
    ∀ (block seed : Nat) (f : TestFile) (off len : Nat),
      get_block block seed = get_block block seed ∧ fop_read f off len = fop_read f off len :=
  fun _ _ _ _ _ => ⟨rfl, rfl⟩

/-- C3 (code bug): at offset exactly equal to the file size the read returns
0 bytes, but at any offset strictly beyond the file size the uint64 clamp
size = testfile->size - abs_offset underflows modulo 2^64, so the loop is
entered with a huge remaining size instead of returning empty. -/
theorem read_beyond_eof_underflows :
    (fop_read ⟨"t100", 100, 1⟩ 100 10).2 = 0 ∧
    (fop_read ⟨"t100", 100, 1⟩ 101 10).2 = 2 ^ 64 - 1 := by
  constructor <;> decide

/-- C4: for requests starting inside the file, the length is clamped to
file.size - offset exactly when offset + length exceeds the size, the call
returns that clamped length (never an error), and the produced bytes have
exactly the clamped length. -/
theorem read_clamps_and_returns_exact (f : TestFile) (off len : Nat)
    (hoff : off < f.size) (hsize : f.size < U64) (hsum : off + len < U64) :
    (fop_read f off len).2 = (if off + len > f.size then f.size - off else len) ∧
    (fop_read f off len).1.length = (if off + len > f.size then f.size - off else len) := by
  by_cases hc : off + len > f.size
  · rw [fop_read_clamped f off len hsize hsum (le_of_lt hoff) hc, if_pos hc]
    exact ⟨rfl, readLoop_length ..⟩
  · rw [fop_read_noclamp f off len hsize (by omega), if_neg hc]
    exact ⟨rfl, readLoop_length ..⟩

/-- Witness for C4: a request of 10 bytes at offset 95 of a 100-byte file is
clamped to 5 bytes. -/
theorem read_clamps_and_returns_exact_witness :
    (fop_read ⟨"w100", 100, 1⟩ 95 10).2 = 5 ∧
    (fop_read ⟨"w100", 100, 1⟩ 95 10).1.length = 5 := by
  have h := read_clamps_and_returns_exact ⟨"w100", 100, 1⟩ 95 10 (by norm_num)
    (by norm_num [U64]) (by norm_num [U64])
  simpa using h

/-- C5 counterexample: refilling the block word at the start of the final
third of the loop (iteration 64), as the claim describes, does not reproduce
the crc output of the source, which refills at iteration 32. -/
theorem crc_refill64_differs : crc 123456789 1 1 ≠ crcRefill64 123456789 1 1 := by decide

/-- C5 amended: the block word is fed into the dividend by a refill at the
start of iteration 32 (the start of the middle third, right after the 32
file_seed bits have been shifted in): every iteration other than 32 is
independent of the block word, and at iteration 32 the previous low word is
discarded, the step depending only on the high word and the block. -/
theorem crc_refill_at_iteration_32 :
    (∀ (b b2 i : Nat) (p : Nat × Nat), i ≠ 32 → crcStep b i p = crcStep b2 i p) ∧
    (∀ (b : Nat) (p q : Nat × Nat), p.1 = q.1 → crcStep b 32 p = crcStep b 32 q) := by
  constructor
  · intro b b2 i p hi
    unfold crcStep
    simp only [if_neg hi]
  · intro b p q h
    unfold crcStep
    simp [h]

/-- Witness for C5 amended, at iteration 7 (block word ignored) and at
iteration 32 (low word discarded). -/
theorem crc_refill_at_iteration_32_witness :
    crcStep 5 7 (1, 2) = crcStep 9 7 (1, 2) ∧ crcStep 5 32 (1, 2) = crcStep 5 32 (1, 3) :=
  ⟨crc_refill_at_iteration_32.1 5 9 7 (1, 2) (by decide),
   crc_refill_at_iteration_32.2 5 (1, 2) (1, 3) rfl⟩

/-- C6: a block consists of BLOCK_SIZE/4 consecutive words of the xorshift
generator described by the spec, seeded with the crc mixing result as first
state word and (362436069, 521288629, 88675123); the stream has exactly
BLOCK_SIZE/4 words and every word stays below 2^32. -/
theorem get_block_is_xorshift_expansion (block seed : Nat) :
    get_block block seed = wordsToBytes (specXorshiftStream (crc global_seed seed block)
      362436069 521288629 88675123 (BLOCK_SIZE / 4)) ∧
    (specXorshiftStream (crc global_seed seed block) 362436069 521288629 88675123
      (BLOCK_SIZE / 4)).length = BLOCK_SIZE / 4 ∧
    ∀ k : Nat, (specXorshiftStream (crc global_seed seed block) 362436069 521288629 88675123
      (BLOCK_SIZE / 4)).getD k 0 < 2 ^ 32 := by
  have hU : U32 = 2 ^ 32 := rfl
  refine ⟨?_, specXorshiftStream_length .., ?_⟩
  · unfold get_block
    rw [xsWords_eq_spec]
  · intro k
    exact hU ▸ specXorshiftStream_getD_lt _ _ _ _ _ k (crc_lt ..)
      (by rw [hU]; norm_num) (by rw [hU]; norm_num) (by rw [hU]; norm_num)

/-- C7 counterexample: a file of 2^50 bytes (2^34 blocks, beyond the 32-bit
block-index space) is accepted by the registration validation of main. -/
theorem register_accepts_beyond_block_space : registerAccepts (2 ^ 50) 1 = true := by decide

/-- C7 amended: registration rejects only a zero size or a zero seed, with no
upper bound on the size; consequently the block index computed during reads is
truncated to 32 bits, and at offset 2^48 the loop reads block 0 again. -/
theorem register_only_rejects_zero :
    (∀ size seed : Nat, registerAccepts size seed = true ↔ size ≠ 0 ∧ seed ≠ 0) ∧
    readLoop 1 (2 ^ 48) 1 = readLoop 1 0 1 := by
  constructor
  · intro size seed
    unfold registerAccepts
    simp
  · have h1 : readLoop 1 (2 ^ 48) 1 =
        ((get_block 0 1).drop 0).take 1 ++ readLoop 1 (2 ^ 48 + 1) 0 := by
      rw [readLoop, dif_neg (by norm_num : ¬(1 = 0))]
      dsimp only
      rw [dif_neg (by decide :
        ¬((2 ^ 48 : Nat) &&& OFFSET_MASK = 0 ∧ BLOCK_SIZE ≤ 1))]
      rw [if_pos (by decide : (1 : Nat) < BLOCK_SIZE - ((2 ^ 48 : Nat) &&& OFFSET_MASK)),
        show ((2 ^ 48 : Nat) >>> BLOCK_SHIFT) % U32 = 0 from by decide,
        show (2 ^ 48 : Nat) &&& OFFSET_MASK = 0 from by decide]
    have h2 : readLoop 1 0 1 = ((get_block 0 1).drop 0).take 1 ++ readLoop 1 (0 + 1) 0 := by
      rw [readLoop, dif_neg (by norm_num : ¬(1 = 0))]
      dsimp only
      rw [dif_neg (by decide : ¬((0 : Nat) &&& OFFSET_MASK = 0 ∧ BLOCK_SIZE ≤ 1))]
      rw [if_pos (by decide : (1 : Nat) < BLOCK_SIZE - ((0 : Nat) &&& OFFSET_MASK)),
        show ((0 : Nat) >>> BLOCK_SHIFT) % U32 = 0 from by decide,
        show (0 : Nat) &&& OFFSET_MASK = 0 from by decide]
    rw [h1, h2, readLoop_zero, readLoop_zero]

/-- C8: adjacent blocks of the same file never have identical contents. -/
theorem adjacent_blocks_differ : ∀ (i s : Nat), get_block i s ≠ get_block (i + 1) s :=
  fun i s => get_block_succ_ne i s

/-- Witness for C8 at block indices 0 and 1 with seed 1. -/
theorem adjacent_blocks_differ_witness : get_block 0 1 ≠ get_block (0 + 1) 1 :=
  adjacent_blocks_differ 0 1

/-- C9: the bytes returned by fop_read depend only on the size and seed of the
file, never on its name. -/
theorem read_ignores_name (f g : TestFile) (off len : Nat)
    (hsize : f.size = g.size) (hseed : f.seed = g.seed) (hname : f.name ≠ g.name) :
    fop_read f off len = fop_read g off len := by
  obtain ⟨nf, sf, df⟩ := f
  obtain ⟨ng, sg, dg⟩ := g
  dsimp only at hsize hseed
  subst hsize
  subst hseed
  rfl

/-- Witness for C9: two files of equal size and seed but different names. -/
theorem read_ignores_name_witness :
    fop_read ⟨"a", 100, 1⟩ 95 10 = fop_read ⟨"b", 100, 1⟩ 95 10 :=
  read_ignores_name _ _ 95 10 rfl rfl (by decide)

/-- C10: the read loop always makes progress: when the remaining size is
positive, the aligned branch consumes BLOCK_SIZE bytes and the other branch
consumes min(size, BLOCK_SIZE - intra_block_offset) >= 1 bytes, so the
remaining size strictly decreases; the loop is total and produces exactly the
requested number of bytes. -/
theorem readLoop_progress_total (seed off size : Nat) (hsz : 0 < size) :
    (off &&& OFFSET_MASK = 0 ∧ BLOCK_SIZE ≤ size →
      readLoop seed off size = get_block ((off >>> BLOCK_SHIFT) % U32) seed ++
        readLoop seed (off + BLOCK_SIZE) (size - BLOCK_SIZE) ∧
      0 < BLOCK_SIZE ∧ size - BLOCK_SIZE < size) ∧
    (¬(off &&& OFFSET_MASK = 0 ∧ BLOCK_SIZE ≤ size) →
      readLoop seed off size =
        ((get_block ((off >>> BLOCK_SHIFT) % U32) seed).drop (off &&& OFFSET_MASK)).take
          (min size (BLOCK_SIZE - (off &&& OFFSET_MASK))) ++
        readLoop seed (off + min size (BLOCK_SIZE - (off &&& OFFSET_MASK)))
          (size - min size (BLOCK_SIZE - (off &&& OFFSET_MASK))) ∧
      0 < min size (BLOCK_SIZE - (off &&& OFFSET_MASK)) ∧
      size - min size (BLOCK_SIZE - (off &&& OFFSET_MASK)) < size) ∧
    (readLoop seed off size).length = size := by
  have hB : BLOCK_SIZE = 65536 := rfl
  have hoff : off &&& OFFSET_MASK ≤ OFFSET_MASK := Nat.and_le_right
  have hM : OFFSET_MASK = 65535 := rfl
  have hmin : (if size < BLOCK_SIZE - (off &&& OFFSET_MASK) then size
      else BLOCK_SIZE - (off &&& OFFSET_MASK)) =
      min size (BLOCK_SIZE - (off &&& OFFSET_MASK)) := by
    split <;> omega
  refine ⟨?_, ?_, readLoop_length ..⟩
  · intro hfull
    refine ⟨?_, by omega, by omega⟩
    rw [readLoop, dif_neg (by omega : ¬size = 0)]
    dsimp only
    rw [dif_pos hfull]
  · intro hpart
    refine ⟨?_, by omega, by omega⟩
    rw [readLoop, dif_neg (by omega : ¬size = 0)]
    dsimp only
    rw [dif_neg hpart]
    rw [hmin]

/-- Witness for C10 at a small unaligned request. -/
theorem readLoop_progress_total_witness : (readLoop 1 5 3).length = 3 :=
  (readLoop_progress_total 1 5 3 (by norm_num)).2.2
